import Mathlib

/-!
Verification development for the store-news fetching script
(src/fetch_store_news.py).  The script is embedded shallowly:

* pure helper functions (clean_summary, is_recent, build_query) become
  Lean functions over String / List Char;
* calendar dates are modelled as natural day numbers; the external
  strftime date formatter is a parameter (fmt : Nat -> String);
* the external dateutil parser is a parameter
  (parse : String -> Option Nat) returning none on parse failure, which
  models the exception swallowed by is_recent;
* the external feed fetch (feedparser over the RSS url built from the
  query) is a parameter (feed : String -> List RawEntry) from the query
  text to the returned raw entries;
* the Python stdlib html.unescape is embedded concretely (single pass,
  leftmost replacement, restricted to a core entity table) since the
  script calls it directly;
* the stable list.sort of Python is embedded as a stable insertion
  sort, which produces the same ordering for the same key comparison;
* the main store loop and the output section become pure functions from
  those parameters to the produced data structures.

Recursive text scanners are written with an explicit fuel argument
(always instantiated with the list length, which every proof shows to
be sufficient) so that all definitions stay executable by the kernel.
-/

namespace FetchStoreNews

/-- Whitespace as used by Python str.split and str.strip (ASCII part). -/
def isPySpace (c : Char) : Bool :=
  c = ' ' || c = '\t' || c = '\n' || c = '\r' || c = '\x0b' || c = '\x0c'

/-- Scan forward and drop everything up to and including the first
close-angle character, returning the remainder; none if there is no
close-angle character.  Helper for the regex sub of _TAG_RE, whose
pattern is an open angle, one or more non-close-angle characters, and
a close angle. -/
def dropThroughGt : List Char → Option (List Char)
  | [] => none
  | c :: rest => if c = '>' then some rest else dropThroughGt rest

/-- Fuel-indexed worker for the tag stripping. -/
def stripTagsFuel : Nat → List Char → List Char
  | 0, l => l
  | _ + 1, [] => []
  | fuel + 1, c :: rest =>
    if c = '<' then
      match rest with
      | [] => ['<']
      | c2 :: rest2 =>
        if c2 = '>' then '<' :: stripTagsFuel fuel (c2 :: rest2)
        else
          match dropThroughGt rest2 with
          | some rest3 => stripTagsFuel fuel rest3
          | none => '<' :: stripTagsFuel fuel (c2 :: rest2)
    else c :: stripTagsFuel fuel rest

/-- Embedding of _TAG_RE.sub applied to a character list: remove every
leftmost occurrence of an open-angle character followed by one or more
non-close-angle characters and a close-angle character, exactly as
re.sub does for the pattern of _TAG_RE in the script. -/
def stripTagsAux (l : List Char) : List Char := stripTagsFuel l.length l

/-- True when a match of the tag pattern of _TAG_RE starts at the head
position, given the characters after the open-angle character: at least
one non-close-angle character followed eventually by a close-angle
character. -/
def tagStartsHere : List Char → Bool
  | [] => false
  | c2 :: rest2 => !(c2 = '>') && rest2.contains '>'

/-- True when some suffix position of the character list starts a match
of the tag pattern of _TAG_RE: an open-angle character, one or more
non-close-angle characters, and a close-angle character. -/
def hasTag : List Char → Bool
  | [] => false
  | c :: rest => (decide (c = '<') && tagStartsHere rest) || hasTag rest

/-- Fuel-indexed worker for the whitespace split. -/
def pySplitFuel : Nat → List Char → List (List Char)
  | 0, _ => []
  | _ + 1, [] => []
  | fuel + 1, c :: rest =>
    if isPySpace c then pySplitFuel fuel rest
    else (c :: rest.takeWhile (fun d => !isPySpace d))
           :: pySplitFuel fuel (rest.dropWhile (fun d => !isPySpace d))

/-- Embedding of Python str.split with no argument: the list of maximal
runs of non-whitespace characters, with whitespace runs discarded. -/
def pySplit (l : List Char) : List (List Char) := pySplitFuel l.length l

/-- Embedding of the single-space str.join used by clean_summary. -/
def pyJoinSpace : List (List Char) → List Char
  | [] => []
  | [w] => w
  | w :: w2 :: ws => w ++ ' ' :: pyJoinSpace (w2 :: ws)

/-- Fuel-indexed worker for the recursive form of the whitespace
collapse. -/
def collapseCoreFuel : Nat → List Char → List Char
  | 0, l => l
  | _ + 1, [] => []
  | fuel + 1, c :: rest =>
    if isPySpace c then
      match rest.dropWhile isPySpace with
      | [] => []
      | d :: rest2 => ' ' :: collapseCoreFuel fuel (d :: rest2)
    else c :: collapseCoreFuel fuel rest

/-- Recursive form of the whitespace collapse, meant for inputs with no
leading whitespace; used to reason about the split-and-join
inductively. -/
def collapseCore (l : List Char) : List Char := collapseCoreFuel l.length l

/-- Characters allowed in the name of a named character reference after
the ampersand, as in the charref pattern of the Python html module:
everything except tab, newline, form feed, space, less-than, ampersand,
hash and semicolon. -/
def entityNameChar (c : Char) : Bool :=
  !(c = '\t' || c = '\n' || c = '\x0c' || c = ' ' || c = '<' || c = '&' || c = '#' || c = ';')

/-- Core rows of the html5 named-reference table of the Python html
module, with and without the trailing semicolon exactly as that table
stores them. -/
def html5Table : List (List Char × List Char) :=
  [("amp;".data, "&".data), ("amp".data, "&".data),
   ("lt;".data, "<".data), ("lt".data, "<".data),
   ("gt;".data, ">".data), ("gt".data, ">".data),
   ("quot;".data, "\"".data), ("quot".data, "\"".data)]

/-- Fuel-indexed worker embedding the unescape function of the Python
html module, which clean_summary calls: a single leftmost pass; at each
ampersand a name of one to thirty-two name characters is read greedily
with an optional trailing semicolon, known names are replaced by their
decoding before scanning continues after the match, unknown matches are
emitted verbatim.  Restricted to the core table above; numeric
character references and the longest-known-prefix fallback for unknown
semicolon-less names are not modelled, and no claim depends on them. -/
def pyUnescapeFuel : Nat → List Char → List Char
  | 0, l => l
  | _ + 1, [] => []
  | fuel + 1, c :: rest =>
    if c = '&' then
      let name := (rest.takeWhile entityNameChar).take 32
      if name.isEmpty then '&' :: pyUnescapeFuel fuel rest
      else
        match rest.drop name.length with
        | ';' :: after2 =>
          match html5Table.lookup (name ++ [';']) with
          | some repl => repl ++ pyUnescapeFuel fuel after2
          | none => '&' :: (name ++ ';' :: pyUnescapeFuel fuel after2)
        | after =>
          match html5Table.lookup name with
          | some repl => repl ++ pyUnescapeFuel fuel after
          | none => '&' :: (name ++ pyUnescapeFuel fuel after)
    else c :: pyUnescapeFuel fuel rest

/-- String-level entity decoding (the unescape call of clean_summary). -/
def pyUnescape (s : String) : String := ⟨pyUnescapeFuel s.data.length s.data⟩

/-- String-level tag stripping (the _TAG_RE.sub call of clean_summary). -/
def stripTags (s : String) : String := ⟨stripTagsAux s.data⟩

/-- String-level whitespace collapse (the split-and-join of
clean_summary). -/
def collapseSpaces (s : String) : String := ⟨pyJoinSpace (pySplit s.data)⟩

/-- Embedding of clean_summary: on a missing or empty summary return the
placeholder, otherwise decode entities, strip tags, collapse whitespace
and fall back to the placeholder when the result is empty.  The none
case models a falsy non-string argument, which the same guard of the
script catches. -/
def clean_summary : Option String → String
  | none => "No summary"
  | some s =>
    if s = "" then "No summary"
    else
      let text := collapseSpaces (stripTags (pyUnescape s))
      if text = "" then "No summary" else text

/-- Whether the pattern list occurs at the head of the text list. -/
def beginsWith : List Char → List Char → Bool
  | [], _ => true
  | _ :: _, [] => false
  | p :: ps, t :: ts => p = t && beginsWith ps ts

/-- Whether the pattern list occurs contiguously anywhere in the text
list. -/
def containsSeq (pat : List Char) : List Char → Bool
  | [] => beginsWith pat []
  | t :: ts => beginsWith pat (t :: ts) || containsSeq pat ts

/-- A string holds a raw entity code when an ampersand followed by the
name of some row of the core table occurs in it. -/
def containsEntityCode (s : String) : Bool :=
  html5Table.any (fun p => containsSeq ('&' :: p.1) s.data)

/-- Embedding of is_recent: empty or sentinel date strings are not
recent; otherwise the external parser decides, a parse failure (the
swallowed exception) yields false, and a parsed date is compared
against the cutoff as an inclusive lower bound. -/
def is_recent (parse : String → Option Nat) (published_str : String) (cutoff_date : Nat) : Bool :=
  if published_str = "" ∨ published_str = "Date not available" then false
  else
    match parse published_str with
    | some pub_date => decide (cutoff_date ≤ pub_date)
    | none => false

/-- The opening keyword disjunction of build_query, verbatim. -/
def base_keywords_open : String :=
  "\"new store\" OR \"new location\" OR \"opening soon\" OR \"coming soon\" OR \"grand opening\" OR \"now open\" OR \"opens new\" OR \"opening in\" OR \"to open\" OR \"set to open\" OR \"plans to open\" OR \"breaks ground\" OR \"now hiring\" OR \"store opening\" OR \"location opening\""

/-- The closing keyword disjunction of build_query, verbatim. -/
def base_keywords_close : String :=
  "\"store closing\" OR \"closing soon\" OR \"closing\" OR \"closures\" OR \"shutting down\" OR \"shutters\" OR \"permanent closure\" OR \"permanent closing\" OR \"going out of business\" OR \"going-out-of-business\" OR \"liquidation\" OR \"everything must go\" OR \"store closing sale\" OR \"last day\" OR \"final day\" OR \"final closing\" OR \"ceases operations\" OR \"store to close\" OR \"stores to close\" OR \"closing all locations\" OR \"closing locations\" OR \"shutter stores\""

/-- The retail context disjunction of build_query, verbatim. -/
def retail_context : String :=
  "(store OR location OR retail OR shop OR outlet OR station OR pharmacy OR supermarket OR grocery OR \"auto parts\")"

/-- The location disjunction of build_query, verbatim. -/
def locations : String :=
  "(USA OR Canada OR \"United States\" OR America OR state OR city OR county)"

/-- Embedding of build_query: the f-string of the script, with the
external strftime formatter as the parameter fmt and dates as day
numbers, so the recent-date constraint uses the day four days before
today. -/
def build_query (fmt : Nat → String) (today : Nat) (store : String) (is_closure : Bool) : String :=
  let keywords := if is_closure then base_keywords_close else base_keywords_open
  let recent_date := fmt (today - 4)
  "\"" ++ store ++ "\" " ++ keywords ++ " " ++ retail_context ++ " " ++ locations
    ++ " after:" ++ recent_date

/-- A raw feed entry as the script reads it from the parsed feed: title
and link are accessed directly, published and summary through entry.get
with defaults, so the latter two may be absent. -/
structure RawEntry where
  title : String
  link : String
  published : Option String
  summary : Option String
deriving DecidableEq, Repr

/-- One result dictionary built by fetch_news_for_store. -/
structure NewsItem where
  title : String
  link : String
  published : String
  summary : String
  type : String
deriving DecidableEq, Repr

/-- Insert an element into a list, placing it before the first element b
with le a b true; together with pySort this is the stable sort of
Python lists for the comparison le. -/
def pyInsert {α : Type} (le : α → α → Bool) (a : α) : List α → List α
  | [] => [a]
  | b :: rest => if le a b then a :: b :: rest else b :: pyInsert le a rest

/-- Stable sort by the boolean relation le (insertion sort from the
right, so elements keep their original order among equals). -/
def pySort {α : Type} (le : α → α → Bool) : List α → List α
  | [] => []
  | a :: rest => pyInsert le a (pySort le rest)

/-- The descending-by-published comparison of the results.sort call with
key published and reverse true. -/
def newsDesc (a b : NewsItem) : Bool := decide (b.published ≤ a.published)

/-- The recency test fetch_news_for_store applies to one raw entry: the
published field with the sentinel substituted when absent, against the
cutoff of two days before today. -/
def passes_filter (parse : String → Option Nat) (today : Nat) (entry : RawEntry) : Bool :=
  is_recent parse (entry.published.getD "Date not available") (today - 2)

/-- The result dictionary fetch_news_for_store builds from a raw entry
that passed the filter: verbatim published string, sanitized summary,
and the event-type tag. -/
def entry_to_item (is_closure : Bool) (entry : RawEntry) : NewsItem :=
  { title := entry.title
    link := entry.link
    published := entry.published.getD "Date not available"
    summary := clean_summary (some (entry.summary.getD "No summary"))
    type := if is_closure then "Closing" else "Opening" }

/-- Embedding of fetch_news_for_store: build the query, fetch the raw
entries for it, keep the entries passing the recency filter as result
dictionaries, and sort them by published string descending (stable). -/
def fetch_news_for_store (fmt : Nat → String) (parse : String → Option Nat)
    (feed : String → List RawEntry) (today : Nat)
    (store : String) (is_closure : Bool) : List NewsItem :=
  let query := build_query fmt today store is_closure
  let entries := feed query
  let results := entries.filterMap (fun entry =>
    if passes_filter parse today entry then some (entry_to_item is_closure entry) else none)
  pySort newsDesc results

/-- One flattened dictionary appended to a per-analyst list in the store
loop; the fields stand for the capitalized dict keys Store, Analyst,
Type, Title, Link, Published and Summary of the script. -/
structure ReportEntry where
  store : String
  analyst : String
  type : String
  title : String
  link : String
  published : String
  summary : String
deriving DecidableEq, Repr

/-- The dictionary the store loop appends for one result. -/
def toReportEntry (store analyst : String) (res : NewsItem) : ReportEntry :=
  { store := store
    analyst := analyst
    type := res.type
    title := res.title
    link := res.link
    published := res.published
    summary := res.summary }

/-- Embedding of the analyst lookup of the store loop, the get with the
Unassigned default. -/
def resolve_analyst (analyst_map : String → Option String) (store : String) : String :=
  (analyst_map store).getD "Unassigned"

/-- Append one entry to the list stored under a key, creating the key at
the end when absent: the append on a defaultdict of lists, with keys in
first-insertion order. -/
def appendTo (groups : List (String × List ReportEntry)) (key : String) (e : ReportEntry) :
    List (String × List ReportEntry) :=
  match groups with
  | [] => [(key, [e])]
  | (k, v) :: rest => if k = key then (k, v ++ [e]) :: rest else (k, v) :: appendTo rest key e

/-- The list stored under a key, empty when the key is absent. -/
def lookupGroup (groups : List (String × List ReportEntry)) (key : String) : List ReportEntry :=
  match groups with
  | [] => []
  | (k, v) :: rest => if k = key then v else lookupGroup rest key

/-- The mutable state of the store loop: the grouped results and the
found-any flag. -/
structure LoopState where
  analyst_results : List (String × List ReportEntry)
  found_any : Bool
deriving DecidableEq, Repr

/-- One iteration of the store loop: resolve the analyst, fetch opening
and closing news, and when the concatenation is non-empty append every
result under the analyst and set the flag. -/
def processStore (fmt : Nat → String) (parse : String → Option Nat)
    (feed : String → List RawEntry) (today : Nat)
    (analyst_map : String → Option String) (st : LoopState) (store : String) : LoopState :=
  let analyst := resolve_analyst analyst_map store
  let results_open := fetch_news_for_store fmt parse feed today store false
  let results_close := fetch_news_for_store fmt parse feed today store true
  let all_results := results_open ++ results_close
  if all_results.isEmpty then st
  else
    { analyst_results :=
        all_results.foldl (fun g res => appendTo g analyst (toReportEntry store analyst res))
          st.analyst_results
      found_any := true }

/-- The whole store loop over the loaded store list. -/
def runLoop (fmt : Nat → String) (parse : String → Option Nat)
    (feed : String → List RawEntry) (today : Nat)
    (analyst_map : String → Option String) (stores : List String) : LoopState :=
  stores.foldl (processStore fmt parse feed today analyst_map)
    { analyst_results := [], found_any := false }

/-- The JSON snapshot structure written to both output files. -/
structure Snapshot where
  last_updated : String
  data : List (String × List ReportEntry)
deriving DecidableEq, Repr

/-- The observable outputs of the tail of the script: whether the
no-news message was printed, the CSV data rows when a CSV file is
written, and the two JSON snapshots. -/
structure RunOutput where
  console_no_news : Bool
  csv_rows : Option (List ReportEntry)
  json_latest : Snapshot
  json_archive : Snapshot
deriving DecidableEq, Repr

/-- The ascending comparison used by sorted on the items of the analyst
dictionary; keys are unique, so comparing the keys decides. -/
def keyAsc (a b : String × List ReportEntry) : Bool := decide (a.1 ≤ b.1)

/-- Embedding of the output tail of the script: the no-news message is
printed exactly when nothing was found, the CSV rows are the
concatenation of the per-analyst lists in insertion order and are
written only in the found branch and only when non-empty, and one JSON
structure with the formatted run date and the analyst data in ascending
key order is written to both the latest and the archive file. -/
def run (fmt : Nat → String) (parse : String → Option Nat)
    (feed : String → List RawEntry) (today : Nat)
    (stores : List String) (analyst_map : String → Option String) : RunOutput :=
  let st := runLoop fmt parse feed today analyst_map stores
  let all_rows := (st.analyst_results.map Prod.snd).flatten
  let csv_rows := if st.found_any then (if all_rows.isEmpty then none else some all_rows) else none
  let json_data : Snapshot :=
    { last_updated := fmt today
      data := pySort keyAsc st.analyst_results }
  { console_no_news := !st.found_any
    csv_rows := csv_rows
    json_latest := json_data
    json_archive := json_data }

/-- Python str.strip: remove leading and trailing whitespace. -/
def pyStrip (s : String) : String :=
  ⟨((s.data.dropWhile isPySpace).reverse.dropWhile isPySpace).reverse⟩

/-- The outcome of reading the analyst csv file, as seen by the script:
the file may be missing, reading or column access may raise, or it
yields rows of Store and Analyst cell texts. -/
inductive CsvLoad where
  | missing : CsvLoad
  | failed : CsvLoad
  | ok : List (String × String) → CsvLoad

/-- The built-in default store list, verbatim. -/
def default_stores : List String :=
  ["Doggie Style", "Dogtopia", "Earthwise Pet", "Feeders Supply",
   "Friendly Pets", "Hollywood Feed", "Kahoots Pet Products", "Kriser\x27s",
   "Mud Bay", "Pet Club Food and Supplies", "Pet Depot", "Pet Evolution"]

/-- The state after the loading section: the store list, the association
rows from which the analyst dict is built by zip, and whether the
console logged a fallback to the default list. -/
structure LoadResult where
  stores : List String
  analyst_rows : List (String × String)
  fallback_logged : Bool
deriving DecidableEq, Repr

/-- Lookup for a Python dict built from association rows by zip: the
last occurrence of a key wins. -/
def dictGet (m : List (String × String)) (k : String) : Option String :=
  match m with
  | [] => none
  | (k2, v) :: rest =>
    match dictGet rest k with
    | some v2 => some v2
    | none => if k2 = k then some v else none

/-- Embedding of the loading section at the top of the script: a missing
file or a raised exception fall back to the default store list with
every analyst Unassigned and log the fallback; otherwise both cell
texts are stripped, rows whose stripped Store is empty are dropped, and
the surviving rows give both the store list and the dict rows. -/
def load_stores : CsvLoad → LoadResult
  | .missing =>
    { stores := default_stores
      analyst_rows := default_stores.map (fun s => (s, "Unassigned"))
      fallback_logged := true }
  | .failed =>
    { stores := default_stores
      analyst_rows := default_stores.map (fun s => (s, "Unassigned"))
      fallback_logged := true }
  | .ok rows =>
    let cleaned := rows.map (fun r => (pyStrip r.1, pyStrip r.2))
    let kept := cleaned.filter (fun r => decide (0 < r.1.length))
    { stores := kept.map Prod.fst
      analyst_rows := kept
      fallback_logged := false }

/-! Theorems about the embedding, followed by the claim theorems. -/

theorem dropThroughGt_length {l r : List Char} (h : dropThroughGt l = some r) :
    r.length < l.length := by
  induction l with
  | nil => simp [dropThroughGt] at h
  | cons c rest ih =>
    by_cases hc : c = '>'
    · simp [dropThroughGt, hc] at h
      subst h
      simp
    · simp [dropThroughGt, hc] at h
      exact Nat.lt_trans (ih h) (by simp)

theorem stripTagsFuel_empty : ∀ f : Nat, stripTagsFuel f [] = [] := by
  intro f
  cases f with
  | zero => exact stripTagsFuel.eq_1 []
  | succ n => exact stripTagsFuel.eq_2 n

theorem stripTagsFuel_irrel : ∀ f1 f2 : Nat, ∀ l : List Char,
    l.length ≤ f1 → l.length ≤ f2 → stripTagsFuel f1 l = stripTagsFuel f2 l := by
  intro f1
  induction f1 with
  | zero =>
    intro f2 l h1 _
    rw [List.length_eq_zero.mp (Nat.le_zero.mp h1)]
    rw [stripTagsFuel_empty, stripTagsFuel_empty]
  | succ f ih =>
    intro f2 l h1 h2
    cases l with
    | nil => rw [stripTagsFuel_empty, stripTagsFuel_empty]
    | cons c rest =>
      cases f2 with
      | zero => simp at h2
      | succ g =>
        simp at h1 h2
        cases rest with
        | nil =>
          rw [stripTagsFuel.eq_3, stripTagsFuel.eq_3]
          rw [stripTagsFuel_empty, stripTagsFuel_empty]
        | cons c2 rest2 =>
          rw [stripTagsFuel.eq_4, stripTagsFuel.eq_4]
          simp at h1 h2
          by_cases hc : c = '<'
          · subst hc
            by_cases h2c : c2 = '>'
            · subst h2c
              simp
              exact ih g ('>' :: rest2) (by simp; omega) (by simp; omega)
            · cases hd : dropThroughGt rest2 with
              | some rest3 =>
                have hlen := dropThroughGt_length hd
                simp [h2c, hd]
                exact ih g rest3 (by omega) (by omega)
              | none =>
                simp [h2c, hd]
                exact ih g (c2 :: rest2) (by simp; omega) (by simp; omega)
          · simp [hc]
            exact ih g (c2 :: rest2) (by simp; omega) (by simp; omega)

theorem stripTagsAux_nil : stripTagsAux [] = [] := by
  rw [stripTagsAux]
  exact stripTagsFuel_empty _

theorem stripTagsAux_cons_ne {c : Char} (rest : List Char) (h : ¬ c = '<') :
    stripTagsAux (c :: rest) = c :: stripTagsAux rest := by
  rw [stripTagsAux, stripTagsAux]
  cases rest with
  | nil =>
    simp only [List.length_cons, List.length_nil]
    rw [stripTagsFuel.eq_3]
    rw [stripTagsFuel_empty]
    simp [h]
  | cons c2 rest2 =>
    simp only [List.length_cons]
    rw [stripTagsFuel.eq_4]
    simp [h]

theorem stripTagsAux_lt_nil : stripTagsAux ['<'] = ['<'] := by
  rw [stripTagsAux]
  simp only [List.length_cons, List.length_nil]
  rw [stripTagsFuel.eq_3]
  simp

theorem stripTagsAux_lt_gt (rest2 : List Char) :
    stripTagsAux ('<' :: '>' :: rest2) = '<' :: '>' :: stripTagsAux rest2 := by
  rw [stripTagsAux]
  simp only [List.length_cons]
  rw [stripTagsFuel.eq_4]
  simp only [if_pos rfl]
  have h1 : stripTagsFuel (rest2.length + 1) ('>' :: rest2) = stripTagsAux ('>' :: rest2) := by
    rw [stripTagsAux]
    simp
  rw [h1, stripTagsAux_cons_ne rest2 (by decide)]
  simp

theorem stripTagsAux_lt_found {c2 : Char} {rest2 rest3 : List Char}
    (h2 : ¬ c2 = '>') (hd : dropThroughGt rest2 = some rest3) :
    stripTagsAux ('<' :: c2 :: rest2) = stripTagsAux rest3 := by
  rw [stripTagsAux, stripTagsAux]
  simp only [List.length_cons]
  rw [stripTagsFuel.eq_4]
  simp only [if_pos rfl, if_neg h2, hd]
  have hlen := dropThroughGt_length hd
  exact stripTagsFuel_irrel _ _ rest3 (by omega) (by omega)

theorem stripTagsAux_lt_nofind {c2 : Char} {rest2 : List Char}
    (h2 : ¬ c2 = '>') (hd : dropThroughGt rest2 = none) :
    stripTagsAux ('<' :: c2 :: rest2) = '<' :: stripTagsAux (c2 :: rest2) := by
  rw [stripTagsAux, stripTagsAux]
  simp only [List.length_cons]
  rw [stripTagsFuel.eq_4]
  simp [h2, hd]

theorem dropThroughGt_eq_none {l : List Char} (h : '>' ∉ l) :
    dropThroughGt l = none := by
  induction l with
  | nil => simp [dropThroughGt]
  | cons c rest ih =>
    simp at h
    have hc : ¬ c = '>' := fun he => h.1 he.symm
    simp [dropThroughGt, hc, ih h.2]

theorem not_mem_of_dropThroughGt_none {l : List Char}
    (h : dropThroughGt l = none) : '>' ∉ l := by
  induction l with
  | nil => simp
  | cons c rest ih =>
    by_cases hc : c = '>'
    · simp [dropThroughGt, hc] at h
    · simp [dropThroughGt, hc] at h
      simp [ih h]
      exact fun he => hc he.symm

theorem tagStartsHere_eq_false {l : List Char} (h : '>' ∉ l) :
    tagStartsHere l = false := by
  cases l with
  | nil => simp [tagStartsHere]
  | cons c2 rest2 =>
    simp at h
    simp [tagStartsHere]
    intro
    exact h.2

theorem hasTag_of_noGt {l : List Char} (h : '>' ∉ l) :
    hasTag l = false := by
  induction l with
  | nil => simp [hasTag]
  | cons c rest ih =>
    simp at h
    rw [hasTag]
    simp [ih h.2]
    intro
    exact tagStartsHere_eq_false (by simp [h.2])

theorem stripTagsAux_of_noGt : ∀ l : List Char, '>' ∉ l →
    stripTagsAux l = l := by
  have H : ∀ n, ∀ l : List Char, l.length ≤ n → '>' ∉ l →
      stripTagsAux l = l := by
    intro n
    induction n with
    | zero =>
      intro l hl _
      rw [List.length_eq_zero.mp (Nat.le_zero.mp hl)]
      exact stripTagsAux_nil
    | succ n ih =>
      intro l hl h
      cases l with
      | nil => exact stripTagsAux_nil
      | cons c rest =>
        simp at h
        by_cases hc : c = '<'
        · subst hc
          cases rest with
          | nil => exact stripTagsAux_lt_nil
          | cons c2 rest2 =>
            simp at h
            have h2 : ¬ c2 = '>' := fun he => h.1 he.symm
            have hd : dropThroughGt rest2 = none := dropThroughGt_eq_none h.2
            rw [stripTagsAux_lt_nofind h2 hd]
            congr 1
            exact ih (c2 :: rest2) (by simp at hl ⊢; omega) (by simp; exact ⟨h.1, h.2⟩)
        · rw [stripTagsAux_cons_ne rest hc]
          congr 1
          exact ih rest (by simp at hl; omega) h.2
  exact fun l => H l.length l (Nat.le_refl _)

theorem hasTag_suffix {l1 l2 : List Char} (h : hasTag (l1 ++ l2) = false) :
    hasTag l2 = false := by
  induction l1 with
  | nil => exact h
  | cons c rest ih =>
    rw [List.cons_append, hasTag] at h
    simp at h
    exact ih h.2

/-- The tag-stripping pass leaves no match of the tag pattern anywhere
in its output. -/
theorem hasTag_stripTagsAux : ∀ l : List Char, hasTag (stripTagsAux l) = false := by
  have H : ∀ n, ∀ l : List Char, l.length ≤ n → hasTag (stripTagsAux l) = false := by
    intro n
    induction n with
    | zero =>
      intro l hl
      rw [List.length_eq_zero.mp (Nat.le_zero.mp hl), stripTagsAux_nil]
      simp [hasTag]
    | succ n ih =>
      intro l hl
      cases l with
      | nil => rw [stripTagsAux_nil]; simp [hasTag]
      | cons c rest =>
        simp at hl
        by_cases hc : c = '<'
        · subst hc
          cases rest with
          | nil => rw [stripTagsAux_lt_nil]; decide
          | cons c2 rest2 =>
            simp at hl
            by_cases h2 : c2 = '>'
            · subst h2
              rw [stripTagsAux_lt_gt]
              have hrec := ih rest2 (by omega)
              rw [hasTag, hasTag]
              simp [hrec, tagStartsHere]
            · cases hd : dropThroughGt rest2 with
              | some rest3 =>
                rw [stripTagsAux_lt_found h2 hd]
                have := dropThroughGt_length hd
                exact ih rest3 (by omega)
              | none =>
                rw [stripTagsAux_lt_nofind h2 hd]
                have hnog : '>' ∉ (c2 :: rest2) := by
                  simp
                  exact ⟨fun he => h2 he.symm, not_mem_of_dropThroughGt_none hd⟩
                rw [stripTagsAux_of_noGt (c2 :: rest2) hnog]
                rw [hasTag]
                simp [hasTag_of_noGt hnog, tagStartsHere_eq_false hnog]
        · rw [stripTagsAux_cons_ne rest hc, hasTag]
          simp [hc, ih rest (by omega)]
  exact fun l => H l.length l (Nat.le_refl _)

theorem length_dropWhile_le {α : Type} (p : α → Bool) (l : List α) :
    (l.dropWhile p).length ≤ l.length := by
  induction l with
  | nil => simp [List.dropWhile]
  | cons c rest ih =>
    rw [List.dropWhile]
    by_cases h : p c
    · simp [h]
      omega
    · simp [h]

theorem mem_of_mem_dropWhile {α : Type} {p : α → Bool} {l : List α} {a : α}
    (h : a ∈ l.dropWhile p) : a ∈ l := by
  induction l with
  | nil => simp [List.dropWhile] at h
  | cons c rest ih =>
    rw [List.dropWhile] at h
    by_cases hc : p c
    · simp [hc] at h
      exact List.mem_cons_of_mem c (ih h)
    · simp [hc] at h
      simp [h]

theorem dropWhile_append_eq {α : Type} (p : α → Bool) (l : List α) :
    ∃ t : List α, t ++ l.dropWhile p = l := by
  induction l with
  | nil => exact ⟨[], rfl⟩
  | cons c rest ih =>
    rw [List.dropWhile]
    by_cases hc : p c
    · obtain ⟨t, ht⟩ := ih
      exact ⟨c :: t, by simp [hc, ht]⟩
    · exact ⟨[], by simp [hc]⟩

theorem dropWhile_head_false {α : Type} {p : α → Bool} {l : List α} {a : α} {as : List α}
    (h : l.dropWhile p = a :: as) : p a = false := by
  induction l with
  | nil => simp [List.dropWhile] at h
  | cons c rest ih =>
    rw [List.dropWhile] at h
    by_cases hc : p c
    · simp [hc] at h
      exact ih h
    · simp [hc] at h
      rw [← h.1]
      simp [hc]

theorem dropWhile_cons_false {α : Type} {p : α → Bool} {a : α} (as : List α)
    (h : p a = false) : (a :: as).dropWhile p = a :: as := by
  rw [List.dropWhile]
  simp [h]

theorem mem_takeWhile_true {α : Type} {p : α → Bool} {l : List α} {a : α}
    (h : a ∈ l.takeWhile p) : p a = true := by
  induction l with
  | nil => simp [List.takeWhile] at h
  | cons c rest ih =>
    rw [List.takeWhile] at h
    by_cases hc : p c
    · simp [hc] at h
      rcases h with h | h
      · rw [h]; exact hc
      · exact ih h
    · simp [hc] at h

theorem pySplitFuel_irrel : ∀ f1 f2 : Nat, ∀ l : List Char,
    l.length ≤ f1 → l.length ≤ f2 → pySplitFuel f1 l = pySplitFuel f2 l := by
  intro f1
  induction f1 with
  | zero =>
    intro f2 l h1 _
    rw [List.length_eq_zero.mp (Nat.le_zero.mp h1)]
    cases f2 <;> rfl
  | succ f ih =>
    intro f2 l h1 h2
    cases l with
    | nil => cases f2 <;> rfl
    | cons c rest =>
      cases f2 with
      | zero => simp at h2
      | succ g =>
        simp at h1 h2
        rw [pySplitFuel.eq_3, pySplitFuel.eq_3]
        by_cases hc : isPySpace c
        · simp [hc]
          exact ih g rest (by omega) (by omega)
        · simp [hc]
          have hlen := length_dropWhile_le (fun d => !isPySpace d) rest
          exact ih g _ (by omega) (by omega)

theorem pySplit_nil : pySplit [] = [] := rfl

theorem pySplit_cons_space {c : Char} (rest : List Char) (h : isPySpace c = true) :
    pySplit (c :: rest) = pySplit rest := by
  rw [pySplit, pySplit]
  simp only [List.length_cons]
  rw [pySplitFuel.eq_3]
  simp [h]

theorem pySplit_cons_word {c : Char} (rest : List Char) (h : isPySpace c = false) :
    pySplit (c :: rest)
      = (c :: rest.takeWhile (fun d => !isPySpace d))
          :: pySplit (rest.dropWhile (fun d => !isPySpace d)) := by
  rw [pySplit, pySplit]
  simp only [List.length_cons]
  rw [pySplitFuel.eq_3]
  simp [h]
  exact pySplitFuel_irrel _ _ _ (length_dropWhile_le _ rest) (Nat.le_refl _)

theorem pySplit_dropWhile_space (l : List Char) :
    pySplit (l.dropWhile isPySpace) = pySplit l := by
  induction l with
  | nil => simp [List.dropWhile]
  | cons c rest ih =>
    rw [List.dropWhile]
    by_cases hc : isPySpace c
    · simp [hc]
      rw [ih, pySplit_cons_space rest hc]
    · simp [hc]

theorem collapseCoreFuel_empty : ∀ f : Nat, collapseCoreFuel f [] = [] := by
  intro f
  cases f <;> rfl

theorem collapseCoreFuel_irrel : ∀ f1 f2 : Nat, ∀ l : List Char,
    l.length ≤ f1 → l.length ≤ f2 → collapseCoreFuel f1 l = collapseCoreFuel f2 l := by
  intro f1
  induction f1 with
  | zero =>
    intro f2 l h1 _
    rw [List.length_eq_zero.mp (Nat.le_zero.mp h1)]
    rw [collapseCoreFuel_empty, collapseCoreFuel_empty]
  | succ f ih =>
    intro f2 l h1 h2
    cases l with
    | nil => rw [collapseCoreFuel_empty, collapseCoreFuel_empty]
    | cons c rest =>
      cases f2 with
      | zero => simp at h2
      | succ g =>
        simp at h1 h2
        rw [collapseCoreFuel.eq_3, collapseCoreFuel.eq_3]
        by_cases hc : isPySpace c
        · simp only [hc, if_pos]
          cases hd : rest.dropWhile isPySpace with
          | nil => simp [hd]
          | cons d rest2 =>
            have hlen := length_dropWhile_le isPySpace rest
            rw [hd] at hlen
            simp at hlen
            simp [hd]
            exact ih g (d :: rest2) (by simp; omega) (by simp; omega)
        · simp [hc]
          exact ih g rest (by omega) (by omega)

theorem collapseCore_nil : collapseCore [] = [] := rfl

theorem collapseCore_cons_nospace {c : Char} (rest : List Char) (h : isPySpace c = false) :
    collapseCore (c :: rest) = c :: collapseCore rest := by
  rw [collapseCore, collapseCore]
  simp only [List.length_cons]
  rw [collapseCoreFuel.eq_3]
  simp [h]

theorem collapseCore_cons_space_nil {c : Char} {rest : List Char} (h : isPySpace c = true)
    (hd : rest.dropWhile isPySpace = []) : collapseCore (c :: rest) = [] := by
  rw [collapseCore]
  simp only [List.length_cons]
  rw [collapseCoreFuel.eq_3]
  simp [h, hd]

theorem collapseCore_cons_space_cons {c : Char} {rest : List Char} {d : Char} {rest2 : List Char}
    (h : isPySpace c = true) (hd : rest.dropWhile isPySpace = d :: rest2) :
    collapseCore (c :: rest) = ' ' :: collapseCore (d :: rest2) := by
  rw [collapseCore, collapseCore]
  simp only [List.length_cons]
  rw [collapseCoreFuel.eq_3]
  simp [h, hd]
  have hlen := length_dropWhile_le isPySpace rest
  rw [hd] at hlen
  exact collapseCoreFuel_irrel _ _ _ (by simp at hlen ⊢; omega) (by simp)

theorem collapseCore_word_append {w m : List Char}
    (hw : ∀ x ∈ w, isPySpace x = false) :
    collapseCore (w ++ m) = w ++ collapseCore m := by
  induction w with
  | nil => simp
  | cons a w2 ih =>
    rw [List.cons_append, collapseCore_cons_nospace _ (hw a (by simp))]
    rw [ih (fun x hx => hw x (by simp [hx]))]
    rfl

/-- The split-and-join whitespace collapse equals the recursive collapse
after removing leading whitespace. -/
theorem pyJoin_pySplit_eq : ∀ l : List Char,
    pyJoinSpace (pySplit l) = collapseCore (l.dropWhile isPySpace) := by
  have H : ∀ n, ∀ l : List Char, l.length ≤ n →
      pyJoinSpace (pySplit l) = collapseCore (l.dropWhile isPySpace) := by
    intro n
    induction n with
    | zero =>
      intro l hl
      rw [List.length_eq_zero.mp (Nat.le_zero.mp hl)]
      simp [pySplit_nil, pyJoinSpace, List.dropWhile, collapseCore_nil]
    | succ n ih =>
      intro l hl
      cases l with
      | nil => simp [pySplit_nil, pyJoinSpace, List.dropWhile, collapseCore_nil]
      | cons c rest =>
        simp at hl
        by_cases hc : isPySpace c
        · rw [pySplit_cons_space rest hc]
          rw [List.dropWhile_cons_of_pos (by simp [hc])]
          rw [← pySplit_dropWhile_space rest] at *
          rw [pySplit_dropWhile_space rest]
          exact ih rest (by omega)
        · have hcf : isPySpace c = false := by simp at hc; exact hc
          rw [pySplit_cons_word rest hcf]
          rw [List.dropWhile_cons_of_neg (by simp [hcf])]
          rw [collapseCore_cons_nospace rest hcf]
          set w := rest.takeWhile (fun d => !isPySpace d) with hw
          set r := rest.dropWhile (fun d => !isPySpace d) with hr
          have hrest : w ++ r = rest := by
            rw [hw, hr]
            exact List.takeWhile_append_dropWhile _ _
          have hwns : ∀ x ∈ w, isPySpace x = false := by
            intro x hx
            have := mem_takeWhile_true (l := rest) (by rw [← hw]; exact hx)
            simp at this
            exact this
          have hcc : collapseCore rest = w ++ collapseCore r := by
            rw [← hrest]
            exact collapseCore_word_append hwns
          have hrlen : r.length ≤ rest.length := by
            rw [hr]
            exact length_dropWhile_le _ rest
          cases hr0 : r.dropWhile isPySpace with
          | nil =>
            have hsplit : pySplit r = [] := by
              rw [← pySplit_dropWhile_space r, hr0, pySplit_nil]
            have hccr : collapseCore r = [] := by
              cases hrc : r with
              | nil => exact collapseCore_nil
              | cons e r2 =>
                have he : isPySpace e = true := by
                  have := dropWhile_head_false (p := fun d => !isPySpace d) (hr.symm ▸ hrc)
                  simp at this
                  exact this
                apply collapseCore_cons_space_nil he
                have : r.dropWhile isPySpace = r2.dropWhile isPySpace := by
                  rw [hrc, List.dropWhile_cons_of_pos (by simp [he])]
                rw [← this, hr0]
            rw [hsplit, hcc, hccr]
            simp [pyJoinSpace]
          | cons d r3 =>
            have hd : isPySpace d = false := dropWhile_head_false hr0
            have hsplit : pySplit r = pySplit (d :: r3) := by
              rw [← pySplit_dropWhile_space r, hr0]
            have hccr : collapseCore r = ' ' :: collapseCore (d :: r3) := by
              cases hrc : r with
              | nil => rw [hrc] at hr0; simp [List.dropWhile] at hr0
              | cons e r2 =>
                have he : isPySpace e = true := by
                  have := dropWhile_head_false (p := fun d => !isPySpace d) (hr.symm ▸ hrc)
                  simp at this
                  exact this
                apply collapseCore_cons_space_cons he
                have : r.dropWhile isPySpace = r2.dropWhile isPySpace := by
                  rw [hrc, List.dropWhile_cons_of_pos (by simp [he])]
                rw [← this, hr0]
            have hih : pyJoinSpace (pySplit (d :: r3)) = collapseCore (d :: r3) := by
              have h1 := ih (d :: r3) (by
                have := length_dropWhile_le isPySpace r
                rw [hr0] at this
                simp at this ⊢
                omega)
              rw [h1, List.dropWhile_cons_of_neg (by simp [hd])]
            rw [hsplit, hcc, hccr]
            rw [pySplit_cons_word r3 hd]
            rw [pyJoinSpace]
            rw [← pySplit_cons_word r3 hd, hih]
            simp
  exact fun l => H l.length l (Nat.le_refl _)

theorem mem_collapseCore : ∀ l : List Char, ∀ c ∈ collapseCore l, c = ' ' ∨ c ∈ l := by
  have H : ∀ n, ∀ l : List Char, l.length ≤ n → ∀ c ∈ collapseCore l, c = ' ' ∨ c ∈ l := by
    intro n
    induction n with
    | zero =>
      intro l hl c hc
      rw [List.length_eq_zero.mp (Nat.le_zero.mp hl), collapseCore_nil] at hc
      simp at hc
    | succ n ih =>
      intro l hl c hc
      cases l with
      | nil => rw [collapseCore_nil] at hc; simp at hc
      | cons a rest =>
        simp at hl
        by_cases ha : isPySpace a
        · cases hd : rest.dropWhile isPySpace with
          | nil =>
            rw [collapseCore_cons_space_nil ha hd] at hc
            simp at hc
          | cons d rest2 =>
            rw [collapseCore_cons_space_cons ha hd] at hc
            rcases List.mem_cons.mp hc with hsp | hmem
            · exact Or.inl hsp
            · have hlen : (d :: rest2).length ≤ n := by
                have := length_dropWhile_le isPySpace rest
                rw [hd] at this
                simp at this ⊢
                omega
              rcases ih (d :: rest2) hlen c hmem with hsp | hmem2
              · exact Or.inl hsp
              · right
                rw [← hd] at hmem2
                exact List.mem_cons_of_mem a (mem_of_mem_dropWhile hmem2)
        · have haf : isPySpace a = false := by simp at ha; exact ha
          rw [collapseCore_cons_nospace rest haf] at hc
          rcases List.mem_cons.mp hc with heq | hmem
          · right; simp [heq]
          · rcases ih rest (by omega) c hmem with hsp | hmem2
            · exact Or.inl hsp
            · right; simp [hmem2]
  exact fun l => H l.length l (Nat.le_refl _)

theorem not_mem_gt_collapseCore {l : List Char} (h : '>' ∉ l) :
    '>' ∉ collapseCore l := by
  intro hmem
  rcases mem_collapseCore l '>' hmem with hsp | hm
  · simp at hsp
  · exact h hm

/-- Collapsing whitespace cannot create a match of the tag pattern. -/
theorem hasTag_collapseCore : ∀ l : List Char, hasTag l = false →
    hasTag (collapseCore l) = false := by
  have H : ∀ n, ∀ l : List Char, l.length ≤ n → hasTag l = false →
      hasTag (collapseCore l) = false := by
    intro n
    induction n with
    | zero =>
      intro l hl _
      rw [List.length_eq_zero.mp (Nat.le_zero.mp hl), collapseCore_nil]
      simp [hasTag]
    | succ n ih =>
      intro l hl h
      cases l with
      | nil => rw [collapseCore_nil]; simp [hasTag]
      | cons a rest =>
        simp at hl
        rw [hasTag] at h
        simp at h
        obtain ⟨hstart, hrest⟩ := h
        by_cases ha : isPySpace a
        · cases hd : rest.dropWhile isPySpace with
          | nil =>
            rw [collapseCore_cons_space_nil ha hd]
            simp [hasTag]
          | cons d rest2 =>
            rw [collapseCore_cons_space_cons ha hd]
            have hlen : (d :: rest2).length ≤ n := by
              have := length_dropWhile_le isPySpace rest
              rw [hd] at this
              simp at this ⊢
              omega
            have hsuf : hasTag (d :: rest2) = false := by
              obtain ⟨t, ht⟩ := dropWhile_append_eq isPySpace rest
              rw [hd] at ht
              exact @hasTag_suffix t _ (ht.symm ▸ hrest)
            rw [hasTag]
            simp [tagStartsHere]
            exact ih (d :: rest2) hlen hsuf
        · have haf : isPySpace a = false := by simp at ha; exact ha
          rw [collapseCore_cons_nospace rest haf]
          rw [hasTag]
          simp [ih rest (by omega) hrest]
          intro haeq
          have hts : tagStartsHere rest = false := hstart haeq
          cases rest with
          | nil => rw [collapseCore_nil]; simp [tagStartsHere]
          | cons d r =>
            rw [tagStartsHere] at hts
            simp at hts
            by_cases hdgt : d = '>'
            · subst hdgt
              rw [collapseCore_cons_nospace r (by decide)]
              simp [tagStartsHere]
            · have hngt : '>' ∉ r := hts hdgt
              by_cases hds : isPySpace d
              · cases hd2 : r.dropWhile isPySpace with
                | nil =>
                  rw [collapseCore_cons_space_nil hds hd2]
                  simp [tagStartsHere]
                | cons e r2 =>
                  rw [collapseCore_cons_space_cons hds hd2]
                  rw [tagStartsHere]
                  simp
                  apply not_mem_gt_collapseCore
                  intro hmem
                  apply hngt
                  rw [← hd2] at hmem
                  exact mem_of_mem_dropWhile hmem
              · have hdsf : isPySpace d = false := by simp at hds; exact hds
                rw [collapseCore_cons_nospace r hdsf]
                rw [tagStartsHere]
                simp
                intro
                exact not_mem_gt_collapseCore hngt
  exact fun l => H l.length l (Nat.le_refl _)

/-- The full whitespace collapse cannot create a match of the tag
pattern. -/
theorem hasTag_pyJoin_pySplit {l : List Char} (h : hasTag l = false) :
    hasTag (pyJoinSpace (pySplit l)) = false := by
  rw [pyJoin_pySplit_eq]
  apply hasTag_collapseCore
  obtain ⟨t, ht⟩ := dropWhile_append_eq isPySpace l
  exact @hasTag_suffix t _ (ht.symm ▸ h)

theorem pyInsert_perm {α : Type} (le : α → α → Bool) (a : α) (l : List α) :
    List.Perm (pyInsert le a l) (a :: l) := by
  induction l with
  | nil => simp [pyInsert]
  | cons b rest ih =>
    by_cases hab : le a b = true
    · simp [pyInsert, hab]
    · simp only [pyInsert, if_neg hab]
      exact (ih.cons b).trans (List.Perm.swap a b rest)

theorem pySort_perm {α : Type} (le : α → α → Bool) (l : List α) :
    List.Perm (pySort le l) l := by
  induction l with
  | nil => exact List.Perm.refl _
  | cons a rest ih =>
    exact (pyInsert_perm le a (pySort le rest)).trans (ih.cons a)

theorem mem_pySort {α : Type} {le : α → α → Bool} {l : List α} {x : α} :
    x ∈ pySort le l ↔ x ∈ l :=
  (pySort_perm le l).mem_iff

theorem pairwise_pyInsert {α : Type} {le : α → α → Bool}
    (htrans : ∀ a b c, le a b = true → le b c = true → le a c = true)
    (htotal : ∀ a b, le a b = true ∨ le b a = true)
    (a : α) (l : List α) (h : l.Pairwise (fun x y => le x y = true)) :
    (pyInsert le a l).Pairwise (fun x y => le x y = true) := by
  induction l with
  | nil => simp [pyInsert]
  | cons b rest ih =>
    rcases List.pairwise_cons.mp h with ⟨hb, hrest⟩
    by_cases hab : le a b = true
    · simp only [pyInsert, if_pos hab]
      refine List.pairwise_cons.mpr ⟨?_, h⟩
      intro x hx
      rcases List.mem_cons.mp hx with rfl | hx2
      · exact hab
      · exact htrans a b x hab (hb x hx2)
    · have hba : le b a = true := by
        rcases htotal a b with h1 | h1
        · exact absurd h1 hab
        · exact h1
      simp only [pyInsert, if_neg hab]
      refine List.pairwise_cons.mpr ⟨?_, ih hrest⟩
      intro x hx
      have hmem := (pyInsert_perm le a rest).mem_iff.mp hx
      rcases List.mem_cons.mp hmem with rfl | hx2
      · exact hba
      · exact hb x hx2

theorem pairwise_pySort {α : Type} {le : α → α → Bool}
    (htrans : ∀ a b c, le a b = true → le b c = true → le a c = true)
    (htotal : ∀ a b, le a b = true ∨ le b a = true)
    (l : List α) : (pySort le l).Pairwise (fun x y => le x y = true) := by
  induction l with
  | nil => simp [pySort]
  | cons a rest ih =>
    exact pairwise_pyInsert htrans htotal a (pySort le rest) ih

theorem filterMap_ite_eq_filter_map {α β : Type} (p : α → Bool) (f : α → β) (l : List α) :
    l.filterMap (fun a => if p a then some (f a) else none) = (l.filter p).map f := by
  induction l with
  | nil => rfl
  | cons a rest ih =>
    by_cases h : p a <;> simp [List.filterMap_cons, List.filter_cons, h, ih]

theorem length_pos_of_ne_empty {s : String} (h : ¬ s = "") : 0 < s.length := by
  obtain ⟨d⟩ := s
  cases d with
  | nil => exact absurd rfl h
  | cons a t => simp [String.length]

/-- C1: is_recent with a parser that fails on the empty and sentinel
strings (as the external dateutil parser does) returns true exactly on
date strings parsing to a calendar day at or after the cutoff, an
inclusive lower bound; it returns false on strings parsing below the
cutoff and on empty, sentinel or unparseable strings.  It is a total
boolean function, which models that the swallowed parse exception never
escapes. -/
theorem C1_is_recent_spec (parse : String → Option Nat) (c : Nat)
    (hempty : parse "" = none) (hsent : parse "Date not available" = none) :
    (∀ d pd, parse d = some pd → c ≤ pd → is_recent parse d c = true)
    ∧ (∀ d pd, parse d = some pd → pd < c → is_recent parse d c = false)
    ∧ (∀ d, parse d = none → is_recent parse d c = false)
    ∧ is_recent parse "" c = false
    ∧ is_recent parse "Date not available" c = false := by
  refine ⟨?_, ?_, ?_, ?_, ?_⟩
  · intro d pd hp hc
    have hd1 : ¬ d = "" := fun he => by rw [he, hempty] at hp; simp at hp
    have hd2 : ¬ d = "Date not available" := fun he => by rw [he, hsent] at hp; simp at hp
    rw [is_recent, if_neg (by simp [hd1, hd2])]
    rw [hp]
    simp [hc]
  · intro d pd hp hc
    have hd1 : ¬ d = "" := fun he => by rw [he, hempty] at hp; simp at hp
    have hd2 : ¬ d = "Date not available" := fun he => by rw [he, hsent] at hp; simp at hp
    rw [is_recent, if_neg (by simp [hd1, hd2])]
    rw [hp]
    simp
    omega
  · intro d hp
    rw [is_recent]
    by_cases hd : d = "" ∨ d = "Date not available"
    · rw [if_pos hd]
    · rw [if_neg hd, hp]
  · rw [is_recent, if_pos (Or.inl rfl)]
  · rw [is_recent, if_pos (Or.inr rfl)]

/-- Witness for C1 at a concrete parser, cutoff and date strings. -/
theorem C1_is_recent_spec_witness :
    is_recent (fun s => if s = "Fri, 10 Oct 2025 08:00:00 GMT" then some 20371 else none)
        "Fri, 10 Oct 2025 08:00:00 GMT" 20369 = true
    ∧ is_recent (fun s => if s = "Fri, 10 Oct 2025 08:00:00 GMT" then some 20371 else none)
        "not a date" 20369 = false := by
  constructor
  · exact (C1_is_recent_spec _ 20369 (by decide) (by decide)).1 _ 20371 (by decide) (by decide)
  · exact (C1_is_recent_spec _ 20369 (by decide) (by decide)).2.2.1 _ (by decide)

theorem data_append (s t : String) : (s ++ t).data = s.data ++ t.data := rfl

theorem string_ext {a b : String} (h : a.data = b.data) : a = b := congrArg String.mk h

set_option maxRecDepth 8192 in
/-- C3: for every store, date formatter and day, the opening and closing
queries differ; each of the two queries carries the store name as a
quoted literal at its front and the freshness constraint after the day
four days before today at its end.  Determinism given the store, the
event type and the day holds by construction, build_query being a pure
function of those arguments and the formatter. -/
theorem C3_build_query_spec (fmt : Nat → String) (today : Nat) (store : String) :
    ¬ (build_query fmt today store false = build_query fmt today store true)
    ∧ (∀ b : Bool, ∃ rest : String,
        build_query fmt today store b = ("\"" ++ store ++ "\"") ++ rest)
    ∧ (∀ b : Bool, ∃ front : String,
        build_query fmt today store b = front ++ ("after:" ++ fmt (today - 4))) := by
  have e1 : ("\" " : String).data = ['"', ' '] := rfl
  have e2 : ("\"" : String).data = ['"'] := rfl
  have e3 : (" " : String).data = [' '] := rfl
  have e4 : (" after:" : String).data = [' ', 'a', 'f', 't', 'e', 'r', ':'] := rfl
  have e5 : ("after:" : String).data = ['a', 'f', 't', 'e', 'r', ':'] := rfl
  refine ⟨?_, ?_, ?_⟩
  · intro h
    have hlen := congrArg String.length h
    simp only [build_query, Bool.false_eq_true, if_false, if_true,
      String.length_append] at hlen
    have h1 : base_keywords_open.length = 253 := rfl
    have h2 : base_keywords_close.length = 440 := rfl
    rw [h1, h2] at hlen
    omega
  · intro b
    refine ⟨" " ++ (if b then base_keywords_close else base_keywords_open) ++ " "
        ++ retail_context ++ " " ++ locations ++ " after:" ++ fmt (today - 4), ?_⟩
    apply string_ext
    cases b <;>
      simp only [build_query, Bool.false_eq_true, if_false, if_true, data_append,
        e1, e2, e3, e4, e5, List.append_assoc, List.cons_append, List.nil_append]
  · intro b
    refine ⟨"\"" ++ store ++ "\" " ++ (if b then base_keywords_close else base_keywords_open)
        ++ " " ++ retail_context ++ " " ++ locations ++ " ", ?_⟩
    apply string_ext
    cases b <;>
      simp only [build_query, Bool.false_eq_true, if_false, if_true, data_append,
        e1, e2, e3, e4, e5, List.append_assoc, List.cons_append, List.nil_append]

/-- Witness for C3 at a concrete formatter, day and store. -/
theorem C3_build_query_spec_witness :
    ¬ (build_query (fun _ => "2025-10-08") 10 "Mud Bay" false
        = build_query (fun _ => "2025-10-08") 10 "Mud Bay" true) :=
  (C3_build_query_spec (fun _ => "2025-10-08") 10 "Mud Bay").1

theorem newsDesc_trans : ∀ a b c : NewsItem,
    newsDesc a b = true → newsDesc b c = true → newsDesc a c = true := by
  intro a b c hab hbc
  simp [newsDesc] at *
  exact le_trans hbc hab

theorem newsDesc_total : ∀ a b : NewsItem, newsDesc a b = true ∨ newsDesc b a = true := by
  intro a b
  rcases le_total b.published a.published with h | h
  · exact Or.inl (decide_eq_true h)
  · exact Or.inr (decide_eq_true h)

theorem keyAsc_trans : ∀ a b c : String × List ReportEntry,
    keyAsc a b = true → keyAsc b c = true → keyAsc a c = true := by
  intro a b c hab hbc
  simp [keyAsc] at *
  exact le_trans hab hbc

theorem keyAsc_total : ∀ a b : String × List ReportEntry,
    keyAsc a b = true ∨ keyAsc b a = true := by
  intro a b
  rcases le_total a.1 b.1 with h | h
  · exact Or.inl (decide_eq_true h)
  · exact Or.inr (decide_eq_true h)

theorem lookupGroup_appendTo (groups : List (String × List ReportEntry)) (key k : String)
    (e : ReportEntry) :
    lookupGroup (appendTo groups key e) k
      = lookupGroup groups k ++ (if k = key then [e] else []) := by
  induction groups with
  | nil =>
    rw [appendTo, lookupGroup]
    by_cases h : key = k
    · subst h
      simp [lookupGroup]
    · have hk : ¬ k = key := fun he => h he.symm
      simp [h, hk, lookupGroup]
  | cons p rest ih =>
    obtain ⟨k2, v⟩ := p
    rw [appendTo]
    by_cases h2 : k2 = key
    · simp only [if_pos h2]
      rw [lookupGroup, lookupGroup]
      by_cases hk : k2 = k
      · have hkey : k = key := by rw [← hk, h2]
        simp [hk, hkey]
      · have hnkey : ¬ k = key := fun he => hk (by rw [h2, ← he])
        simp [hk, hnkey]
    · simp only [if_neg h2]
      rw [lookupGroup, lookupGroup]
      by_cases hk : k2 = k
      · have hnkey : ¬ k = key := fun he => h2 (by rw [hk, he])
        simp [hk, hnkey]
      · rw [if_neg hk, if_neg hk, ih]

theorem lookupGroup_foldl_append (rs : List NewsItem) (store analyst : String)
    (g0 : List (String × List ReportEntry)) (k : String) :
    lookupGroup (rs.foldl (fun g res => appendTo g analyst (toReportEntry store analyst res)) g0) k
      = lookupGroup g0 k
          ++ (if k = analyst then rs.map (toReportEntry store analyst) else []) := by
  induction rs generalizing g0 with
  | nil => simp
  | cons r rs2 ih =>
    rw [List.foldl_cons, ih, lookupGroup_appendTo]
    by_cases h : k = analyst <;> simp [h]

theorem lookupGroup_processStore (fmt : Nat → String) (parse : String → Option Nat)
    (feed : String → List RawEntry) (today : Nat) (analyst_map : String → Option String)
    (st : LoopState) (store : String) (k : String) :
    lookupGroup (processStore fmt parse feed today analyst_map st store).analyst_results k
      = lookupGroup st.analyst_results k
        ++ (if k = resolve_analyst analyst_map store
            then ((fetch_news_for_store fmt parse feed today store false
                    ++ fetch_news_for_store fmt parse feed today store true).map
                   (toReportEntry store (resolve_analyst analyst_map store)))
            else []) := by
  rw [processStore]
  by_cases he : (fetch_news_for_store fmt parse feed today store false
      ++ fetch_news_for_store fmt parse feed today store true).isEmpty = true
  · rw [if_pos he]
    have hnil := List.isEmpty_iff.mp he
    simp [hnil]
  · rw [if_neg he]
    exact lookupGroup_foldl_append _ _ _ _ _

theorem lookupGroup_runLoop_aux (fmt : Nat → String) (parse : String → Option Nat)
    (feed : String → List RawEntry) (today : Nat) (analyst_map : String → Option String) :
    ∀ (stores : List String) (st : LoopState) (k : String),
    lookupGroup ((stores.foldl (processStore fmt parse feed today analyst_map) st)).analyst_results k
      = lookupGroup st.analyst_results k
        ++ (stores.filter (fun s => decide (resolve_analyst analyst_map s = k))).flatMap
            (fun s => (fetch_news_for_store fmt parse feed today s false
                        ++ fetch_news_for_store fmt parse feed today s true).map
                (toReportEntry s k)) := by
  intro stores
  induction stores with
  | nil =>
    intro st k
    simp
  | cons s rest ih =>
    intro st k
    rw [List.foldl_cons, ih, lookupGroup_processStore, List.filter_cons]
    by_cases h : resolve_analyst analyst_map s = k
    · subst h
      simp [List.flatMap_cons]
    · have hk : ¬ k = resolve_analyst analyst_map s := fun he => h he.symm
      simp [h, hk]

theorem lookupGroup_runLoop (fmt : Nat → String) (parse : String → Option Nat)
    (feed : String → List RawEntry) (today : Nat) (analyst_map : String → Option String)
    (stores : List String) (k : String) :
    lookupGroup (runLoop fmt parse feed today analyst_map stores).analyst_results k
      = (stores.filter (fun s => decide (resolve_analyst analyst_map s = k))).flatMap
          (fun s => (fetch_news_for_store fmt parse feed today s false
                      ++ fetch_news_for_store fmt parse feed today s true).map
              (toReportEntry s k)) := by
  rw [runLoop, lookupGroup_runLoop_aux]
  rw [lookupGroup]
  simp

theorem appendTo_invariant {stores : List String}
    {groups : List (String × List ReportEntry)} {key : String} {e : ReportEntry}
    (hinv : ∀ p ∈ groups, 0 < p.2.length ∧ ∀ x ∈ p.2, x.analyst = p.1 ∧ x.store ∈ stores)
    (he : e.analyst = key) (hes : e.store ∈ stores) :
    ∀ p ∈ appendTo groups key e,
      0 < p.2.length ∧ ∀ x ∈ p.2, x.analyst = p.1 ∧ x.store ∈ stores := by
  induction groups with
  | nil =>
    intro p hp
    rw [appendTo] at hp
    simp at hp
    subst hp
    refine ⟨by simp, ?_⟩
    intro x hx
    simp at hx
    subst hx
    exact ⟨he, hes⟩
  | cons q rest ih =>
    obtain ⟨k2, v⟩ := q
    intro p hp
    rw [appendTo] at hp
    by_cases h2 : k2 = key
    · simp only [if_pos h2] at hp
      rcases List.mem_cons.mp hp with hhd | htl
      · subst hhd
        obtain ⟨hlen, hall⟩ := hinv (k2, v) (by simp)
        refine ⟨by simp, ?_⟩
        intro x hx
        rcases List.mem_append.mp hx with hx1 | hx2
        · exact hall x hx1
        · simp at hx2
          subst hx2
          exact ⟨by rw [he, h2], hes⟩
      · exact hinv p (List.mem_cons_of_mem _ htl)
    · simp only [if_neg h2] at hp
      rcases List.mem_cons.mp hp with hhd | htl
      · subst hhd
        exact hinv (k2, v) (by simp)
      · exact ih (fun q hq => hinv q (List.mem_cons_of_mem _ hq)) p htl

theorem foldl_append_invariant {stores : List String}
    (rs : List NewsItem) (store analyst : String) (hs : store ∈ stores) :
    ∀ g0 : List (String × List ReportEntry),
      (∀ p ∈ g0, 0 < p.2.length ∧ ∀ x ∈ p.2, x.analyst = p.1 ∧ x.store ∈ stores) →
      ∀ p ∈ rs.foldl (fun g res => appendTo g analyst (toReportEntry store analyst res)) g0,
        0 < p.2.length ∧ ∀ x ∈ p.2, x.analyst = p.1 ∧ x.store ∈ stores := by
  induction rs with
  | nil => intro g0 hinv; exact hinv
  | cons r rs2 ih =>
    intro g0 hinv
    rw [List.foldl_cons]
    exact ih _ (appendTo_invariant hinv rfl hs)

theorem processStore_invariant (fmt : Nat → String) (parse : String → Option Nat)
    (feed : String → List RawEntry) (today : Nat) (analyst_map : String → Option String)
    {stores : List String} {st : LoopState} {store : String} (hs : store ∈ stores)
    (hinv : ∀ p ∈ st.analyst_results,
      0 < p.2.length ∧ ∀ x ∈ p.2, x.analyst = p.1 ∧ x.store ∈ stores) :
    ∀ p ∈ (processStore fmt parse feed today analyst_map st store).analyst_results,
      0 < p.2.length ∧ ∀ x ∈ p.2, x.analyst = p.1 ∧ x.store ∈ stores := by
  rw [processStore]
  by_cases he : (fetch_news_for_store fmt parse feed today store false
      ++ fetch_news_for_store fmt parse feed today store true).isEmpty = true
  · simp only [he, if_pos]
    exact hinv
  · simp only [if_neg he]
    exact foldl_append_invariant _ _ _ hs _ hinv

theorem runLoop_invariant (fmt : Nat → String) (parse : String → Option Nat)
    (feed : String → List RawEntry) (today : Nat) (analyst_map : String → Option String)
    (stores : List String) :
    ∀ p ∈ (runLoop fmt parse feed today analyst_map stores).analyst_results,
      0 < p.2.length ∧ ∀ x ∈ p.2, x.analyst = p.1 ∧ x.store ∈ stores := by
  rw [runLoop]
  have H : ∀ (sub : List String) (st : LoopState),
      (∀ s ∈ sub, s ∈ stores) →
      (∀ p ∈ st.analyst_results,
        0 < p.2.length ∧ ∀ x ∈ p.2, x.analyst = p.1 ∧ x.store ∈ stores) →
      ∀ p ∈ ((sub.foldl (processStore fmt parse feed today analyst_map) st)).analyst_results,
        0 < p.2.length ∧ ∀ x ∈ p.2, x.analyst = p.1 ∧ x.store ∈ stores := by
    intro sub
    induction sub with
    | nil => intro st _ hinv; exact hinv
    | cons s rest ih =>
      intro st hsub hinv
      rw [List.foldl_cons]
      exact ih _ (fun x hx => hsub x (by simp [hx]))
        (processStore_invariant fmt parse feed today analyst_map (hsub s (by simp)) hinv)
  exact H stores _ (fun x hx => hx) (by simp)

theorem keys_appendTo (groups : List (String × List ReportEntry)) (key : String)
    (e : ReportEntry) :
    (appendTo groups key e).map Prod.fst
      = if key ∈ groups.map Prod.fst then groups.map Prod.fst
        else groups.map Prod.fst ++ [key] := by
  induction groups with
  | nil => simp [appendTo]
  | cons q rest ih =>
    obtain ⟨k2, v⟩ := q
    rw [appendTo]
    by_cases h2 : k2 = key
    · simp [h2]
    · simp only [if_neg h2, List.map_cons]
      rw [ih]
      by_cases hmem : key ∈ rest.map Prod.fst
      · rw [if_pos hmem, if_pos (List.mem_cons_of_mem k2 hmem)]
      · have hnotin : key ∉ k2 :: rest.map Prod.fst := by
          intro hin
          rcases List.mem_cons.mp hin with he | hm
          · exact h2 he.symm
          · exact hmem hm
        rw [if_neg hmem, if_neg hnotin]
        simp

theorem nodup_keys_appendTo {groups : List (String × List ReportEntry)} {key : String}
    {e : ReportEntry} (h : (groups.map Prod.fst).Nodup) :
    ((appendTo groups key e).map Prod.fst).Nodup := by
  rw [keys_appendTo]
  by_cases hmem : key ∈ groups.map Prod.fst
  · simp [hmem, h]
  · simp only [if_neg hmem]
    simp [List.nodup_append, h, hmem]

theorem nodup_keys_foldl_append {rs : List NewsItem} {store analyst : String} :
    ∀ {g0 : List (String × List ReportEntry)}, (g0.map Prod.fst).Nodup →
      (((rs.foldl (fun g res => appendTo g analyst (toReportEntry store analyst res)) g0)).map
          Prod.fst).Nodup := by
  induction rs with
  | nil => intro g0 h; exact h
  | cons r rs2 ih =>
    intro g0 h
    rw [List.foldl_cons]
    exact ih (nodup_keys_appendTo h)

theorem nodup_keys_runLoop (fmt : Nat → String) (parse : String → Option Nat)
    (feed : String → List RawEntry) (today : Nat) (analyst_map : String → Option String)
    (stores : List String) :
    (((runLoop fmt parse feed today analyst_map stores)).analyst_results.map Prod.fst).Nodup := by
  rw [runLoop]
  have H : ∀ (sub : List String) (st : LoopState),
      (st.analyst_results.map Prod.fst).Nodup →
      (((sub.foldl (processStore fmt parse feed today analyst_map) st)).analyst_results.map
          Prod.fst).Nodup := by
    intro sub
    induction sub with
    | nil => intro st h; exact h
    | cons s rest ih =>
      intro st h
      rw [List.foldl_cons]
      apply ih
      rw [processStore]
      by_cases he : (fetch_news_for_store fmt parse feed today s false
          ++ fetch_news_for_store fmt parse feed today s true).isEmpty = true
      · simp only [he, if_pos]
        exact h
      · simp only [if_neg he]
        exact nodup_keys_foldl_append h
  exact H stores _ (by simp)

theorem runLoop_not_found (fmt : Nat → String) (parse : String → Option Nat)
    (feed : String → List RawEntry) (today : Nat) (analyst_map : String → Option String) :
    ∀ (sub : List String) (st : LoopState),
      (sub.foldl (processStore fmt parse feed today analyst_map) st).found_any = false →
      sub.foldl (processStore fmt parse feed today analyst_map) st = st := by
  intro sub
  induction sub with
  | nil => intro st _; rfl
  | cons s rest ih =>
    intro st h
    rw [List.foldl_cons] at h ⊢
    have h2 := ih _ h
    have h3 : (processStore fmt parse feed today analyst_map st s).found_any = false := by
      rw [h2] at h
      exact h
    have h4 : processStore fmt parse feed today analyst_map st s = st := by
      rw [processStore] at h3 ⊢
      by_cases he : (fetch_news_for_store fmt parse feed today s false
          ++ fetch_news_for_store fmt parse feed today s true).isEmpty = true
      · rw [if_pos he]
      · rw [if_neg he] at h3
        simp at h3
    rw [h4] at h2 ⊢
    exact h2

theorem sum_lengths_appendTo (groups : List (String × List ReportEntry)) (key : String)
    (e : ReportEntry) :
    ((appendTo groups key e).map (fun p => p.2.length)).sum
      = ((groups.map (fun p => p.2.length)).sum) + 1 := by
  induction groups with
  | nil => simp [appendTo]
  | cons q rest ih =>
    obtain ⟨k2, v⟩ := q
    rw [appendTo]
    by_cases h2 : k2 = key
    · simp [h2]
      omega
    · simp only [if_neg h2, List.map_cons, List.sum_cons, ih]
      omega

theorem sum_lengths_foldl_append (rs : List NewsItem) (store analyst : String) :
    ∀ g0 : List (String × List ReportEntry),
      (((rs.foldl (fun g res => appendTo g analyst (toReportEntry store analyst res)) g0)).map
          (fun p => p.2.length)).sum
        = ((g0.map (fun p => p.2.length)).sum) + rs.length := by
  induction rs with
  | nil => intro g0; simp
  | cons r rs2 ih =>
    intro g0
    rw [List.foldl_cons, ih, sum_lengths_appendTo]
    simp
    omega

theorem sum_lengths_processStore (fmt : Nat → String) (parse : String → Option Nat)
    (feed : String → List RawEntry) (today : Nat) (analyst_map : String → Option String)
    (st : LoopState) (store : String) :
    (((processStore fmt parse feed today analyst_map st store)).analyst_results.map
        (fun p => p.2.length)).sum
      = ((st.analyst_results.map (fun p => p.2.length)).sum)
        + (fetch_news_for_store fmt parse feed today store false).length
        + (fetch_news_for_store fmt parse feed today store true).length := by
  rw [processStore]
  by_cases he : (fetch_news_for_store fmt parse feed today store false
      ++ fetch_news_for_store fmt parse feed today store true).isEmpty = true
  · have hnil := List.isEmpty_iff.mp he
    have h1 : fetch_news_for_store fmt parse feed today store false = [] :=
      (List.append_eq_nil.mp hnil).1
    have h2 : fetch_news_for_store fmt parse feed today store true = [] :=
      (List.append_eq_nil.mp hnil).2
    simp only [he, if_pos]
    simp [h1, h2]
  · simp only [if_neg he]
    rw [sum_lengths_foldl_append]
    simp
    omega

theorem sum_lengths_runLoop (fmt : Nat → String) (parse : String → Option Nat)
    (feed : String → List RawEntry) (today : Nat) (analyst_map : String → Option String)
    (stores : List String) :
    (((runLoop fmt parse feed today analyst_map stores)).analyst_results.map
        (fun p => p.2.length)).sum
      = (stores.map (fun s =>
            (fetch_news_for_store fmt parse feed today s false).length
            + (fetch_news_for_store fmt parse feed today s true).length)).sum := by
  rw [runLoop]
  have H : ∀ (sub : List String) (st : LoopState),
      (((sub.foldl (processStore fmt parse feed today analyst_map) st)).analyst_results.map
          (fun p => p.2.length)).sum
        = ((st.analyst_results.map (fun p => p.2.length)).sum)
          + (sub.map (fun s =>
              (fetch_news_for_store fmt parse feed today s false).length
              + (fetch_news_for_store fmt parse feed today s true).length)).sum := by
    intro sub
    induction sub with
    | nil => intro st; simp
    | cons s rest ih =>
      intro st
      rw [List.foldl_cons, ih, sum_lengths_processStore]
      simp
      omega
  rw [H stores _]
  simp

/-- C2: fetch_news_for_store returns exactly the raw entries of the feed
for the built query whose published field, with the sentinel substituted
when absent, passes is_recent against the cutoff two days before today;
every included record carries the verbatim published string, the summary
sanitized by clean_summary, and the tag Closing when scanning closures
and Opening otherwise. -/
theorem C2_fetch_filter_spec (fmt : Nat → String) (parse : String → Option Nat)
    (feed : String → List RawEntry) (today : Nat) (store : String) (is_closure : Bool) :
    List.Perm (fetch_news_for_store fmt parse feed today store is_closure)
        (((feed (build_query fmt today store is_closure)).filter
            (passes_filter parse today)).map (entry_to_item is_closure))
    ∧ (∀ e ∈ feed (build_query fmt today store is_closure),
        passes_filter parse today e = true →
          entry_to_item is_closure e ∈ fetch_news_for_store fmt parse feed today store is_closure)
    ∧ (∀ x ∈ fetch_news_for_store fmt parse feed today store is_closure,
        ∃ e ∈ feed (build_query fmt today store is_closure),
          passes_filter parse today e = true
          ∧ x.published = e.published.getD "Date not available"
          ∧ x.summary = clean_summary (some (e.summary.getD "No summary"))
          ∧ x.title = e.title ∧ x.link = e.link
          ∧ x.type = (if is_closure then "Closing" else "Opening")) := by
  have hperm : List.Perm (fetch_news_for_store fmt parse feed today store is_closure)
      (((feed (build_query fmt today store is_closure)).filter
          (passes_filter parse today)).map (entry_to_item is_closure)) := by
    show List.Perm
      (pySort newsDesc ((feed (build_query fmt today store is_closure)).filterMap
        (fun entry =>
          if passes_filter parse today entry then some (entry_to_item is_closure entry)
          else none))) _
    rw [filterMap_ite_eq_filter_map]
    exact pySort_perm _ _
  refine ⟨hperm, ?_, ?_⟩
  · intro e he hpass
    apply hperm.mem_iff.mpr
    exact List.mem_map.mpr ⟨e, List.mem_filter.mpr ⟨he, hpass⟩, rfl⟩
  · intro x hx
    have hx2 := hperm.mem_iff.mp hx
    obtain ⟨e, hef, hxe⟩ := List.mem_map.mp hx2
    obtain ⟨hee, hep⟩ := List.mem_filter.mp hef
    refine ⟨e, hee, hep, ?_⟩
    subst hxe
    exact ⟨rfl, rfl, rfl, rfl, rfl⟩

/-- Witness for C2 at a concrete parser, feed with one recent entry, day
and store. -/
theorem C2_fetch_filter_spec_witness :
    entry_to_item false
        { title := "T", link := "L", published := some "2025-10-10", summary := none }
      ∈ fetch_news_for_store (fun _ => "d")
          (fun s => if s = "2025-10-10" then some 50 else none)
          (fun _ => [{ title := "T", link := "L", published := some "2025-10-10",
                       summary := none }])
          50 "Acme Pet" false :=
  (C2_fetch_filter_spec (fun _ => "d") (fun s => if s = "2025-10-10" then some 50 else none)
      (fun _ => [{ title := "T", link := "L", published := some "2025-10-10", summary := none }])
      50 "Acme Pet" false).2.1 _ (by simp) (by decide)

/-- C5: every call of fetch_news_for_store returns its records sorted by
the published string in descending order, and in the per-analyst
sequence accumulated by the store loop each contributing store
contributes its opening-scan records followed by its closing-scan
records, stores being taken in list order, so the per-store emission
order is preserved by the grouping. -/
theorem C5_ordering_spec (fmt : Nat → String) (parse : String → Option Nat)
    (feed : String → List RawEntry) (today : Nat)
    (stores : List String) (analyst_map : String → Option String) :
    (∀ (store : String) (is_closure : Bool),
      (fetch_news_for_store fmt parse feed today store is_closure).Pairwise
        (fun a b => b.published ≤ a.published))
    ∧ (∀ a : String,
        lookupGroup (runLoop fmt parse feed today analyst_map stores).analyst_results a
          = (stores.filter (fun s => decide (resolve_analyst analyst_map s = a))).flatMap
              (fun s =>
                ((fetch_news_for_store fmt parse feed today s false).map (toReportEntry s a))
                ++ ((fetch_news_for_store fmt parse feed today s true).map
                      (toReportEntry s a)))) := by
  constructor
  · intro store c
    show ((pySort newsDesc ((feed (build_query fmt today store c)).filterMap
        (fun entry =>
          if passes_filter parse today entry then some (entry_to_item c entry)
          else none)))).Pairwise (fun a b => b.published ≤ a.published)
    have hp := pairwise_pySort newsDesc_trans newsDesc_total
      ((feed (build_query fmt today store c)).filterMap
        (fun entry =>
          if passes_filter parse today entry then some (entry_to_item c entry) else none))
    exact hp.imp (fun h => of_decide_eq_true h)
  · intro a
    rw [lookupGroup_runLoop]
    simp [List.map_append]

/-- Witness for C5 at a concrete feed: the grouped list under the mapped
analyst is the opening block followed by the closing block. -/
theorem C5_ordering_spec_witness :
    lookupGroup (runLoop (fun _ => "d") (fun s => if s = "2025-10-10" then some 50 else none)
        (fun _ => [{ title := "T", link := "L", published := some "2025-10-10",
                     summary := none }])
        50 (fun _ => some "Jane") ["Acme Pet"]).analyst_results "Jane"
      = ((fetch_news_for_store (fun _ => "d")
            (fun s => if s = "2025-10-10" then some 50 else none)
            (fun _ => [{ title := "T", link := "L", published := some "2025-10-10",
                         summary := none }]) 50 "Acme Pet" false).map
          (toReportEntry "Acme Pet" "Jane"))
        ++ ((fetch_news_for_store (fun _ => "d")
            (fun s => if s = "2025-10-10" then some 50 else none)
            (fun _ => [{ title := "T", link := "L", published := some "2025-10-10",
                         summary := none }]) 50 "Acme Pet" true).map
          (toReportEntry "Acme Pet" "Jane")) := by
  have h := (C5_ordering_spec (fun _ => "d")
      (fun s => if s = "2025-10-10" then some 50 else none)
      (fun _ => [{ title := "T", link := "L", published := some "2025-10-10",
                   summary := none }])
      50 ["Acme Pet"] (fun _ => some "Jane")).2 "Jane"
  rw [h]
  decide

/-- C6: on every run both JSON snapshots are identical, with last
updated set to the formatted run date and the analyst keys in strictly
ascending order; when nothing at all was found the data mapping is
empty, no CSV rows are written, and the console reports that no recent
news was found. -/
theorem C6_output_spec (fmt : Nat → String) (parse : String → Option Nat)
    (feed : String → List RawEntry) (today : Nat)
    (stores : List String) (analyst_map : String → Option String) :
    (run fmt parse feed today stores analyst_map).json_latest
        = (run fmt parse feed today stores analyst_map).json_archive
    ∧ (run fmt parse feed today stores analyst_map).json_latest.last_updated = fmt today
    ∧ (((run fmt parse feed today stores analyst_map).json_latest.data.map
          Prod.fst)).Pairwise (· < ·)
    ∧ ((runLoop fmt parse feed today analyst_map stores).found_any = false →
        (run fmt parse feed today stores analyst_map).json_latest.data = []
        ∧ (run fmt parse feed today stores analyst_map).csv_rows = none
        ∧ (run fmt parse feed today stores analyst_map).console_no_news = true) := by
  refine ⟨rfl, rfl, ?_, ?_⟩
  · have hpair := pairwise_pySort keyAsc_trans keyAsc_total
      (runLoop fmt parse feed today analyst_map stores).analyst_results
    have h1 : ((pySort keyAsc
        (runLoop fmt parse feed today analyst_map stores).analyst_results)).Pairwise
          (fun p q => p.1 ≤ q.1) :=
      hpair.imp (fun h => of_decide_eq_true h)
    have h2 := List.pairwise_map.mpr h1
    have hnd : (((pySort keyAsc
        (runLoop fmt parse feed today analyst_map stores).analyst_results).map
          Prod.fst)).Nodup := by
      have hperm := (pySort_perm keyAsc
        (runLoop fmt parse feed today analyst_map stores).analyst_results).map Prod.fst
      exact hperm.nodup_iff.mpr
        (nodup_keys_runLoop fmt parse feed today analyst_map stores)
    show (((pySort keyAsc
        (runLoop fmt parse feed today analyst_map stores).analyst_results).map
          Prod.fst)).Pairwise (· < ·)
    exact (h2.and hnd).imp (fun h => lt_of_le_of_ne h.1 h.2)
  · intro hna
    have h0 : runLoop fmt parse feed today analyst_map stores
        = { analyst_results := [], found_any := false } := by
      rw [runLoop] at hna ⊢
      exact runLoop_not_found fmt parse feed today analyst_map stores _ hna
    refine ⟨?_, ?_, ?_⟩
    · show pySort keyAsc (runLoop fmt parse feed today analyst_map stores).analyst_results = []
      rw [h0]
      rfl
    · show (if (runLoop fmt parse feed today analyst_map stores).found_any = true
          then _ else none) = none
      rw [h0]
      rfl
    · show (!(runLoop fmt parse feed today analyst_map stores).found_any) = true
      rw [h0]
      rfl

/-- Witness for C6 at a concrete empty feed: nothing is found, the data
mapping is empty, no CSV rows are produced and the console reports. -/
theorem C6_output_spec_witness :
    (run (fun _ => "2025-10-12") (fun _ => none) (fun _ => []) 7 ["Mud Bay"]
        (fun _ => none)).json_latest.data = []
    ∧ (run (fun _ => "2025-10-12") (fun _ => none) (fun _ => []) 7 ["Mud Bay"]
        (fun _ => none)).csv_rows = none
    ∧ (run (fun _ => "2025-10-12") (fun _ => none) (fun _ => []) 7 ["Mud Bay"]
        (fun _ => none)).console_no_news = true :=
  (C6_output_spec (fun _ => "2025-10-12") (fun _ => none) (fun _ => []) 7 ["Mud Bay"]
      (fun _ => none)).2.2.2 (by decide)

/-- C7 counterexample: the claim reads that the grouping assigns the
analyst Unassigned to exactly the stores absent from the mapping, but
the analyst lookup of the store loop also yields Unassigned for a store
explicitly mapped to the literal Unassigned, as every store is in the
fallback mapping; so the assignment is not an exact characterization of
absence. -/
theorem C7_counterexample :
    ¬ (∀ (analyst_map : String → Option String) (store : String),
        resolve_analyst analyst_map store = "Unassigned" ↔ analyst_map store = none) := by
  intro h
  have h2 := (h (fun s => if s = "Acme Pet" then some "Unassigned" else none) "Acme Pet").mp
    (by decide)
  revert h2
  decide

/-- C7 (amended): the analyst lookup assigns Unassigned to every store
absent from the mapping and the mapped analyst to every store present
in it; consequently Unassigned is assigned to exactly the absent stores
whenever no store is explicitly mapped to the literal Unassigned.
Every entry grouped by the store loop carries the analyst resolved from
its own store. -/
theorem C7_analyst_assignment (analyst_map : String → Option String) :
    (∀ store, analyst_map store = none → resolve_analyst analyst_map store = "Unassigned")
    ∧ (∀ store a, analyst_map store = some a → resolve_analyst analyst_map store = a)
    ∧ (∀ store, (∀ a, analyst_map store = some a → ¬ a = "Unassigned") →
        (resolve_analyst analyst_map store = "Unassigned" ↔ analyst_map store = none))
    ∧ (∀ (fmt : Nat → String) (parse : String → Option Nat) (feed : String → List RawEntry)
        (today : Nat) (stores : List String) (k : String),
        ∀ e ∈ lookupGroup (runLoop fmt parse feed today analyst_map stores).analyst_results k,
          e.analyst = resolve_analyst analyst_map e.store) := by
  refine ⟨?_, ?_, ?_, ?_⟩
  · intro store h
    rw [resolve_analyst, h]
    rfl
  · intro store a h
    rw [resolve_analyst, h]
    rfl
  · intro store hno
    constructor
    · intro hu
      cases hm : analyst_map store with
      | none => rfl
      | some a =>
        rw [resolve_analyst, hm] at hu
        simp at hu
        exact absurd hu (hno a hm)
    · intro hm
      rw [resolve_analyst, hm]
      rfl
  · intro fmt parse feed today stores k e he
    rw [lookupGroup_runLoop] at he
    obtain ⟨s, hs, hes⟩ := List.mem_flatMap.mp he
    obtain ⟨_, hres⟩ := List.mem_filter.mp hs
    have hres2 : resolve_analyst analyst_map s = k := of_decide_eq_true hres
    obtain ⟨item, _, hitem⟩ := List.mem_map.mp hes
    subst hitem
    show k = resolve_analyst analyst_map s
    exact hres2.symm

/-- Witness for C7 at concrete mappings. -/
theorem C7_analyst_assignment_witness :
    resolve_analyst (fun _ => none) "Pet Depot" = "Unassigned"
    ∧ resolve_analyst (fun _ => some "Jane") "Pet Depot" = "Jane" := by
  constructor
  · exact (C7_analyst_assignment (fun _ => none)).1 "Pet Depot" rfl
  · exact (C7_analyst_assignment (fun _ => some "Jane")).2.1 "Pet Depot" "Jane" rfl

theorem dictGet_const_unassigned (l : List String) (s : String) :
    dictGet (l.map (fun x => (x, "Unassigned"))) s
      = if s ∈ l then some "Unassigned" else none := by
  induction l with
  | nil => simp [dictGet]
  | cons a rest ih =>
    rw [List.map_cons, dictGet, ih]
    by_cases hmem : s ∈ rest
    · simp [hmem]
    · simp only [if_neg hmem]
      by_cases ha : a = s
      · simp [ha]
      · have hnotin : ¬ s ∈ a :: rest := by
          intro hin
          rcases List.mem_cons.mp hin with he | hm
          · exact ha he.symm
          · exact hmem hm
        simp [ha, hnotin]

/-- C8: when the analyst file is missing or reading it raises, the run
falls back to the built-in default store list with every store mapped
to Unassigned, logging the fallback; when the file is read, both cells
of every row are stripped, rows whose stripped Store is empty are
dropped, and the surviving rows form both the store list and the
store-to-analyst rows; in either case the loading is a total function,
so the run does not fail. -/
theorem C8_load_stores_spec :
    ((load_stores .missing).stores = default_stores
      ∧ (load_stores .missing).fallback_logged = true
      ∧ ∀ s ∈ (load_stores .missing).stores,
          dictGet (load_stores .missing).analyst_rows s = some "Unassigned")
    ∧ ((load_stores .failed).stores = default_stores
      ∧ (load_stores .failed).fallback_logged = true
      ∧ ∀ s ∈ (load_stores .failed).stores,
          dictGet (load_stores .failed).analyst_rows s = some "Unassigned")
    ∧ (∀ rows : List (String × String),
        (load_stores (.ok rows)).stores
            = ((rows.map (fun r => pyStrip r.1)).filter (fun s => decide (0 < s.length)))
        ∧ (load_stores (.ok rows)).analyst_rows
            = ((rows.map (fun r => (pyStrip r.1, pyStrip r.2))).filter
                (fun r => decide (0 < r.1.length)))
        ∧ (load_stores (.ok rows)).fallback_logged = false
        ∧ ∀ s ∈ (load_stores (.ok rows)).stores, 0 < s.length) := by
  refine ⟨⟨rfl, rfl, ?_⟩, ⟨rfl, rfl, ?_⟩, ?_⟩
  · intro s hs
    show dictGet (default_stores.map (fun x => (x, "Unassigned"))) s = some "Unassigned"
    rw [dictGet_const_unassigned]
    exact if_pos hs
  · intro s hs
    show dictGet (default_stores.map (fun x => (x, "Unassigned"))) s = some "Unassigned"
    rw [dictGet_const_unassigned]
    exact if_pos hs
  · intro rows
    refine ⟨?_, rfl, rfl, ?_⟩
    · show ((rows.map (fun r => (pyStrip r.1, pyStrip r.2))).filter
          (fun r => decide (0 < r.1.length))).map Prod.fst
        = (rows.map (fun r => pyStrip r.1)).filter (fun s => decide (0 < s.length))
      rw [List.filter_map, List.filter_map, List.map_map]
      rfl
    · intro s hs
      show 0 < s.length
      have : s ∈ ((rows.map (fun r => (pyStrip r.1, pyStrip r.2))).filter
          (fun r => decide (0 < r.1.length))).map Prod.fst := hs
      obtain ⟨r, hr, hrs⟩ := List.mem_map.mp this
      obtain ⟨_, hlen⟩ := List.mem_filter.mp hr
      rw [← hrs]
      exact of_decide_eq_true hlen

/-- Witness for C8 at a concrete default store and concrete rows. -/
theorem C8_load_stores_spec_witness :
    dictGet (load_stores .missing).analyst_rows "Dogtopia" = some "Unassigned"
    ∧ (load_stores (.ok [(" Acme Pet ", "Jane"), ("  ", "Bob")])).stores
        = ((([(" Acme Pet ", "Jane"), ("  ", "Bob")] : List (String × String)).map
            (fun r => pyStrip r.1)).filter (fun s => decide (0 < s.length))) := by
  constructor
  · exact (C8_load_stores_spec).1.2.2 "Dogtopia" (by decide)
  · exact ((C8_load_stores_spec).2.2 [(" Acme Pet ", "Jane"), ("  ", "Bob")]).1

/-- C9: in the snapshot data of every run, every analyst key holds a
non-empty sequence, every entry in it carries that analyst in its own
analyst field, and every entry names a store from the loaded store
list. -/
theorem C9_group_invariant (fmt : Nat → String) (parse : String → Option Nat)
    (feed : String → List RawEntry) (today : Nat)
    (stores : List String) (analyst_map : String → Option String) :
    ∀ p ∈ (run fmt parse feed today stores analyst_map).json_latest.data,
      0 < p.2.length ∧ ∀ e ∈ p.2, e.analyst = p.1 ∧ e.store ∈ stores := by
  intro p hp
  have hp2 : p ∈ (runLoop fmt parse feed today analyst_map stores).analyst_results := by
    have hdata : (run fmt parse feed today stores analyst_map).json_latest.data
        = pySort keyAsc (runLoop fmt parse feed today analyst_map stores).analyst_results := rfl
    rw [hdata] at hp
    exact mem_pySort.mp hp
  exact runLoop_invariant fmt parse feed today analyst_map stores p hp2

set_option maxRecDepth 40000 in
/-- Witness for C9 at a concrete run with one found article. -/
theorem C9_group_invariant_witness :
    0 < ([({ store := "Acme Pet", analyst := "Jane", type := "Opening", title := "T",
             link := "L", published := "2025-10-10",
             summary := "No summary" } : ReportEntry)]).length
    ∧ ∀ e ∈ ([({ store := "Acme Pet", analyst := "Jane", type := "Opening", title := "T",
                 link := "L", published := "2025-10-10",
                 summary := "No summary" } : ReportEntry)]),
        e.analyst = "Jane" ∧ e.store ∈ ["Acme Pet"] :=
  C9_group_invariant (fun _ => "d") (fun s => if s = "2025-10-10" then some 50 else none)
    (fun q => if q = build_query (fun _ => "d") 50 "Acme Pet" false
              then [{ title := "T", link := "L", published := some "2025-10-10",
                      summary := none }] else [])
    50 ["Acme Pet"] (fun _ => some "Jane")
    ("Jane", [{ store := "Acme Pet", analyst := "Jane", type := "Opening", title := "T",
                link := "L", published := "2025-10-10", summary := "No summary" }])
    (by decide)

/-- C10: the grouping neither drops nor duplicates records: the total
number of entries in the snapshot data equals the sum over all stores
and both event types of the number of feed entries that passed the
recency filter, and when CSV rows are written there are exactly that
many of them. -/
theorem C10_counts_spec (fmt : Nat → String) (parse : String → Option Nat)
    (feed : String → List RawEntry) (today : Nat)
    (stores : List String) (analyst_map : String → Option String) :
    (((run fmt parse feed today stores analyst_map).json_latest.data.map
        (fun p => p.2.length)).sum)
      = (stores.map (fun s =>
          (fetch_news_for_store fmt parse feed today s false).length
          + (fetch_news_for_store fmt parse feed today s true).length)).sum
    ∧ (∀ rows, (run fmt parse feed today stores analyst_map).csv_rows = some rows →
        rows.length
          = (stores.map (fun s =>
              (fetch_news_for_store fmt parse feed today s false).length
              + (fetch_news_for_store fmt parse feed today s true).length)).sum) := by
  have hsum : ((pySort keyAsc
        (runLoop fmt parse feed today analyst_map stores).analyst_results).map
      (fun p => p.2.length)).sum
      = (((runLoop fmt parse feed today analyst_map stores).analyst_results).map
          (fun p => p.2.length)).sum :=
    ((pySort_perm keyAsc
      (runLoop fmt parse feed today analyst_map stores).analyst_results).map _).sum_eq
  constructor
  · show ((pySort keyAsc
        (runLoop fmt parse feed today analyst_map stores).analyst_results).map
      (fun p => p.2.length)).sum = _
    rw [hsum, sum_lengths_runLoop]
  · intro rows hrow
    have hcsv : (run fmt parse feed today stores analyst_map).csv_rows
        = (if (runLoop fmt parse feed today analyst_map stores).found_any = true
           then (if ((((runLoop fmt parse feed today analyst_map
                        stores)).analyst_results.map Prod.snd).flatten).isEmpty = true
                 then none
                 else some ((((runLoop fmt parse feed today analyst_map
                        stores)).analyst_results.map Prod.snd).flatten))
           else none) := rfl
    rw [hcsv] at hrow
    by_cases hf : (runLoop fmt parse feed today analyst_map stores).found_any = true
    · rw [if_pos hf] at hrow
      by_cases hie : ((((runLoop fmt parse feed today analyst_map
          stores)).analyst_results.map Prod.snd).flatten).isEmpty = true
      · rw [if_pos hie] at hrow
        cases hrow
      · rw [if_neg hie] at hrow
        have hrows : rows = (((runLoop fmt parse feed today analyst_map
            stores)).analyst_results.map Prod.snd).flatten := (Option.some.inj hrow).symm
        rw [hrows, List.length_flatten, List.map_map]
        rw [← sum_lengths_runLoop fmt parse feed today analyst_map stores]
        rfl
    · rw [if_neg hf] at hrow
      cases hrow

set_option maxRecDepth 40000 in
/-- Witness for C10 at a concrete run with one found article. -/
theorem C10_counts_spec_witness :
    ([({ store := "Acme Pet", analyst := "Jane", type := "Opening", title := "T",
         link := "L", published := "2025-10-10",
         summary := "No summary" } : ReportEntry)]).length
      = ((["Acme Pet"]).map (fun s =>
          (fetch_news_for_store (fun _ => "d")
            (fun x => if x = "2025-10-10" then some 50 else none)
            (fun q => if q = build_query (fun _ => "d") 50 "Acme Pet" false
                      then [{ title := "T", link := "L", published := some "2025-10-10",
                              summary := none }] else [])
            50 s false).length
          + (fetch_news_for_store (fun _ => "d")
            (fun x => if x = "2025-10-10" then some 50 else none)
            (fun q => if q = build_query (fun _ => "d") 50 "Acme Pet" false
                      then [{ title := "T", link := "L", published := some "2025-10-10",
                              summary := none }] else [])
            50 s true).length)).sum :=
  (C10_counts_spec (fun _ => "d") (fun x => if x = "2025-10-10" then some 50 else none)
      (fun q => if q = build_query (fun _ => "d") 50 "Acme Pet" false
                then [{ title := "T", link := "L", published := some "2025-10-10",
                        summary := none }] else [])
      50 ["Acme Pet"] (fun _ => some "Jane")).2 _ (by decide)

/-- C4 counterexample: the claim promises that sanitizing an input
containing HTML tags and entities leaves no raw entity codes in the
output, but the entity decoding of the script is a single pass, so the
doubly encoded input below sanitizes to text that still holds the raw
entity code of the less-than sign. -/
theorem C4_counterexample :
    ¬ (∀ raw : String, hasTag raw.data = true → containsEntityCode raw = true →
        containsEntityCode (clean_summary (some raw)) = false) := by
  intro h
  have := h "<b>&amp;lt;</b>" (by decide) (by decide)
  revert this
  decide

/-- C4 (amended): clean_summary leaves no tag sequence in its output for
any input whatsoever; the empty and absent inputs give the literal
placeholder; the result is always a non-empty string, the placeholder
exactly when the input is empty, absent or sanitizes to empty; single
encoded entities are decoded, but the decoding is one pass, so raw
entity codes can survive doubly encoded inputs.  Totality of the
function models that no exception is raised. -/
theorem C4_clean_summary_spec :
    (∀ raw : String, hasTag (clean_summary (some raw)).data = false)
    ∧ clean_summary (some "") = "No summary"
    ∧ clean_summary none = "No summary"
    ∧ (∀ o : Option String, 0 < (clean_summary o).length)
    ∧ clean_summary (some "a &amp; b <i>c</i>") = "a & b c" := by
  refine ⟨?_, rfl, rfl, ?_, by decide⟩
  · intro raw
    rw [clean_summary]
    by_cases h0 : raw = ""
    · simp only [h0, if_pos rfl]
      decide
    · simp only [if_neg h0]
      by_cases h1 : collapseSpaces (stripTags (pyUnescape raw)) = ""
      · simp only [h1, if_pos rfl]
        decide
      · simp only [if_neg h1]
        show hasTag (pyJoinSpace (pySplit (stripTagsAux (pyUnescape raw).data))) = false
        exact hasTag_pyJoin_pySplit (hasTag_stripTagsAux _)
  · intro o
    cases o with
    | none => decide
    | some s =>
      rw [clean_summary]
      by_cases h0 : s = ""
      · simp only [h0, if_pos rfl]
        decide
      · simp only [if_neg h0]
        by_cases h1 : collapseSpaces (stripTags (pyUnescape s)) = ""
        · simp only [h1, if_pos rfl]
          decide
        · simp only [if_neg h1]
          exact length_pos_of_ne_empty h1

end FetchStoreNews
